import Mathlib

/-
Verification development for the batch route optimization engine of the
logistics-optimizer repository.  The definitions below are a shallow
embedding of src/optimize/route_optimizer.py together with the batch-size
validator of src/config/settings.py.  Machine floats of the source are
modelled as rationals; the pyproj reprojection and the shapely planar
distance are abstract function parameters (the source only uses that the
distance of two projected points is a number, nonnegative for the real
planar metric); pandas data frames become typed lists of rows; the DuckDB
table built with UNION ALL is modelled as the in-order concatenation of
the parsed buffers; the worker pool is modelled by an explicit completion
schedule.  Dynamic-type checks of the source (numeric dtype, null,
timestamp parse) are vacuous on the typed rows and are therefore not
represented; all remaining checks are translated one by one.
-/

namespace LogisticsOpt

/-- One parsed delivery record: the six required columns of the CSV schema.
Coordinates are degree values, delivery_id is an integer key. -/
structure Row where
  delivery_id : Int
  pickup_lat : ℚ
  pickup_lon : ℚ
  dropoff_lat : ℚ
  dropoff_lon : ℚ
  timestamp : String
deriving DecidableEq

/-- A parsed CSV buffer: the header columns and the typed rows.
An all-empty buffer (pandas EmptyDataError) is modelled by columns = []. -/
structure CsvTable where
  columns : List String
  rows : List Row
deriving DecidableEq

/-- Errors raised by the optimization module.  optimizationError models the
custom OptimizationError class; valueError and zeroDivisionError model the
corresponding Python builtins escaping uncaught. -/
inductive PyError where
  | optimizationError : String → PyError
  | valueError : String → PyError
  | zeroDivisionError : PyError
deriving DecidableEq

/-- Decidable equality of outcomes, used to evaluate the pipeline on
concrete inputs inside witnesses. -/
instance exceptDecEq {e a : Type} [DecidableEq e] [DecidableEq a] :
    DecidableEq (Except e a) := fun x y =>
  match x, y with
  | .error u, .error v =>
    if h : u = v then isTrue (by rw [h]) else isFalse (by intro hc; cases hc; exact h rfl)
  | .ok u, .ok v =>
    if h : u = v then isTrue (by rw [h]) else isFalse (by intro hc; cases hc; exact h rfl)
  | .error _, .ok _ => isFalse (by intro hc; cases hc)
  | .ok _, .error _ => isFalse (by intro hc; cases hc)

/-- The required column list of validate_csv_schema. -/
def expectedColumns : List String :=
  ["delivery_id", "pickup_lat", "pickup_lon", "dropoff_lat", "dropoff_lon", "timestamp"]

/-- Columns of the GeoDataFrame returned by optimize_batch. -/
def outputColumns : List String :=
  ["delivery_id", "pickup_lat", "pickup_lon", "dropoff_lat", "dropoff_lon", "timestamp", "geometry"]

/-- Python int() on a rational: truncation toward zero. -/
def pyInt (q : ℚ) : ℤ := if 0 ≤ q then ⌊q⌋ else ⌈q⌉

/-- The zone number computed by get_utm_crs: int((lon + 180) / 6) + 1. -/
def utmZone (lon : ℚ) : ℤ := pyInt ((lon + 180) / 6) + 1

/-- Python format {:02d}: pad the decimal representation to width two. -/
def pad2 (z : ℤ) : String :=
  let s := toString z
  if s.length < 2 then "0" ++ s else s

/-- get_utm_crs of route_optimizer.py: EPSG:326zz for lat at least 0,
EPSG:327zz otherwise, zz the two-digit padded zone number. -/
def get_utm_crs (lon lat : ℚ) : String :=
  (if 0 ≤ lat then "EPSG:326" else "EPSG:327") ++ pad2 (utmZone lon)

/-- Graph nodes of build_delivery_graph: one pickup node p i and one
dropoff node d i per batch row index i (source node ids are the strings
p_i and d_i). -/
inductive GNode where
  | p : Nat → GNode
  | d : Nat → GNode
deriving DecidableEq

/-- Numeric identifier of a node: the owning row index (the numeric part
of the source node-id string). -/
def gidx : GNode → Nat
  | .p i => i
  | .d i => i

/-- Node insertion order of build_delivery_graph: p 0, d 0, p 1, d 1, ... -/
def nodeOrder : Nat → List GNode
  | 0 => []
  | n + 1 => nodeOrder n ++ [GNode.p n, GNode.d n]

/-- The block of creation-ordered nodes for the c rows starting at row i:
p i, d i, p (i+1), d (i+1), ...; the suffix of nodeOrder not yet visited
by the canonical walk. -/
def nodeOrderFrom : Nat → Nat → List GNode
  | _, 0 => []
  | i, c + 1 => GNode.p i :: GNode.d i :: nodeOrderFrom (i + 1) c

/-- Out-adjacency of the delivery graph together with edge weights, in
edge-insertion order: the zero-weight own-dropoff edge of a pickup comes
first (added by build_delivery_graph), then the cross-delivery dropoff
edges in row order (added by the distance double loop of optimize_batch).
Dropoff nodes have no outgoing edges. -/
def adjOf (n : Nat) (w : Nat → Nat → ℚ) : GNode → List (GNode × ℚ)
  | .p i =>
      (GNode.d i, 0) ::
        (((List.range n).filter (fun j => decide (j ≠ i))).map (fun j => (GNode.d j, w i j)))
  | .d _ => []

/-- Python min over a nonempty list keyed by the weight component: the
first element attaining the minimum (min replaces the best only on a
strictly smaller key). -/
def minByWeight (x0 : GNode × ℚ) (xs : List (GNode × ℚ)) : GNode × ℚ :=
  xs.foldl (fun b a => if a.2 < b.2 then a else b) x0

/-- One decision of the greedy loop body: the unvisited out-neighbors of
the current node; if none, the first unvisited node in creation order
(none when every node is visited: the break of the source loop); else the
minimum-weight neighbor. -/
def pickNext (adj : GNode → List (GNode × ℚ)) (nodes visited : List GNode)
    (current : GNode) : Option GNode :=
  match (adj current).filter (fun e => !(decide (e.1 ∈ visited))) with
  | [] => (nodes.filter (fun nd => !(decide (nd ∈ visited)))).head?
  | e :: rest => some (minByWeight e rest).1

/-- The greedy walk loop of optimize_batch.  path and visited are
accumulated in reverse; the loop runs while fewer nodes are visited than
exist and each iteration pushes exactly one fresh node, so fuel equal to
the node count always suffices. -/
def greedyLoop (adj : GNode → List (GNode × ℚ)) (nodes : List GNode) :
    Nat → GNode → List GNode → List GNode → List GNode
  | 0, _, path, _ => path.reverse
  | fuel + 1, current, path, visited =>
    if visited.length < nodes.length then
      match pickNext adj nodes visited current with
      | none => path.reverse
      | some u => greedyLoop adj nodes fuel u (u :: path) (u :: visited)
    else path.reverse

/-- The full greedy walk from a start node. -/
def greedyWalk (adj : GNode → List (GNode × ℚ)) (nodes : List GNode)
    (start : GNode) : List GNode :=
  greedyLoop adj nodes nodes.length start [start] [start]

/-- Reversed canonical walk state: the visited list (also the reversed
path) of the walk when it stands at pickup i, having alternated through
p 0, d 0, ..., d (i-1), p i. -/
def canonRev : Nat → List GNode
  | 0 => [GNode.p 0]
  | i + 1 => GNode.p (i + 1) :: GNode.d i :: canonRev i

/-- The point_type tag attached to every graph node. -/
inductive PType where
  | pickup
  | dropoff
deriving DecidableEq

/-- An output row of optimize_batch: the six input fields plus the
geometry column (a lon/lat point in the geographic frame, the original
node geometry that build_delivery_graph stored before reprojection). -/
structure OutRow where
  delivery_id : Int
  pickup_lat : ℚ
  pickup_lon : ℚ
  dropoff_lat : ℚ
  dropoff_lon : ℚ
  timestamp : String
  geometry : ℚ × ℚ
deriving DecidableEq

/-- The row fields packaged with a given geometry point. -/
def rowOut (r : Row) (geom : ℚ × ℚ) : OutRow :=
  ⟨r.delivery_id, r.pickup_lat, r.pickup_lon, r.dropoff_lat, r.dropoff_lon, r.timestamp, geom⟩

/-- Pickup point of a row, as the x/y pair Point(lon, lat). -/
def pickupGeom (r : Row) : ℚ × ℚ := (r.pickup_lon, r.pickup_lat)

/-- Dropoff point of a row, as the x/y pair Point(lon, lat). -/
def dropoffGeom (r : Row) : ℚ × ℚ := (r.dropoff_lon, r.dropoff_lat)

/-- Geographic geometry attribute of a graph node (the default pair is
never reached for indices inside the batch). -/
def nodeGeom (batch : List Row) : GNode → ℚ × ℚ
  | .p i => ((batch.get? i).map pickupGeom).getD (0, 0)
  | .d i => ((batch.get? i).map dropoffGeom).getD (0, 0)

/-- Placeholder output row backing the total getD lookups; never reached
for node indices inside the batch. -/
def outDefault : OutRow := rowOut ⟨0, 0, 0, 0, 0, ""⟩ (0, 0)

/-- Node attribute dictionary relevant to the output: the point_type tag
and the output row carrying the geographic geometry. -/
def nodeOut (batch : List Row) : GNode → PType × OutRow
  | .p i => (PType.pickup,
      ((batch.get? i).map (fun r => rowOut r (pickupGeom r))).getD outDefault)
  | .d i => (PType.dropoff,
      ((batch.get? i).map (fun r => rowOut r (dropoffGeom r))).getD outDefault)

/-- The single CRS of a batch, from the first pickup point of the batch. -/
def batchCrs (batch : List Row) : String :=
  match batch with
  | [] => ""
  | r :: _ => get_utm_crs r.pickup_lon r.pickup_lat

/-- Projection of a node geometry with the single batch CRS; proj stands
for the pyproj coordinate transformation. -/
def batchProjGeom (proj : String → ℚ × ℚ → ℚ × ℚ) (batch : List Row) (nd : GNode) : ℚ × ℚ :=
  proj (batchCrs batch) (nodeGeom batch nd)

/-- Planar distance between projected pickup i and projected dropoff j;
distFn stands for the shapely distance on projected points. -/
def batchWeight (proj : String → ℚ × ℚ → ℚ × ℚ) (distFn : ℚ × ℚ → ℚ × ℚ → ℚ)
    (batch : List Row) (i j : Nat) : ℚ :=
  distFn (batchProjGeom proj batch (GNode.p i)) (batchProjGeom proj batch (GNode.d j))

/-- drop_duplicates on the delivery_id column, keeping first occurrences;
seen accumulates the keys already emitted. -/
def dedupByKey : List OutRow → List Int → List OutRow
  | [], _ => []
  | r :: rs, seen =>
    if r.delivery_id ∈ seen then dedupByKey rs seen
    else r :: dedupByKey rs (r.delivery_id :: seen)

/-- A GeoDataFrame abstracted to its column list and typed rows. -/
structure Gdf where
  columns : List String
  rows : List OutRow
deriving DecidableEq

/-- Membership test used when filtering the walk output to pickup rows. -/
def isPickupNode : GNode → Bool
  | .p _ => true
  | .d _ => false

/-- optimize_batch of route_optimizer.py: empty batches return the empty
typed frame; otherwise project with the single batch CRS, build the graph,
walk it greedily from the first pickup, keep the pickup visits and
deduplicate them on delivery_id. -/
def optimizeBatch (proj : String → ℚ × ℚ → ℚ × ℚ) (distFn : ℚ × ℚ → ℚ × ℚ → ℚ)
    (batch : List Row) : Except PyError Gdf :=
  if batch.isEmpty then .ok ⟨outputColumns, []⟩
  else
    let n := batch.length
    let w := batchWeight proj distFn batch
    match (nodeOrder n).filter isPickupNode with
    | [] => .error (.optimizationError "No pickup nodes in batch")
    | s :: _ =>
      let path := greedyWalk (adjOf n w) (nodeOrder n) s
      let pathRows := path.map (nodeOut batch)
      let pickedRows := (pathRows.filter (fun pr => decide (pr.1 = PType.pickup))).map (·.2)
      .ok ⟨outputColumns, dedupByKey pickedRows []⟩

/-- validate_csv_schema of route_optimizer.py, on an already parsed
table.  The dynamic checks (numeric dtype, nulls, integer dtype,
timestamp parse) hold by construction on typed rows; the remaining
checks appear in source order: empty data, required columns present,
duplicate keys, then the latitude and longitude ranges in the order of
the per-column loop. -/
def validate_csv_schema (t : CsvTable) : Except PyError Unit :=
  if t.columns = [] then
    .error (.optimizationError "CSV data is empty or lacks a header")
  else if ¬ (∀ c ∈ expectedColumns, c ∈ t.columns) then
    .error (.optimizationError "CSV schema mismatch")
  else if ¬ (t.rows.map (fun r => r.delivery_id)).Nodup then
    .error (.optimizationError "Duplicate delivery_id values found")
  else if ¬ (∀ r ∈ t.rows, -90 ≤ r.pickup_lat ∧ r.pickup_lat ≤ 90) then
    .error (.optimizationError "pickup_lat out of valid latitude range (-90 to 90)")
  else if ¬ (∀ r ∈ t.rows, -180 ≤ r.pickup_lon ∧ r.pickup_lon ≤ 180) then
    .error (.optimizationError "pickup_lon out of valid longitude range (-180 to 180)")
  else if ¬ (∀ r ∈ t.rows, -90 ≤ r.dropoff_lat ∧ r.dropoff_lat ≤ 90) then
    .error (.optimizationError "dropoff_lat out of valid latitude range (-90 to 90)")
  else if ¬ (∀ r ∈ t.rows, -180 ≤ r.dropoff_lon ∧ r.dropoff_lon ≤ 180) then
    .error (.optimizationError "dropoff_lon out of valid longitude range (-180 to 180)")
  else .ok ()

/-- The validation loop of optimize_routes: each buffer is validated on
its own, in order, and the first failure aborts. -/
def validateBuffers : List CsvTable → Except PyError Unit
  | [] => .ok ()
  | t :: rest =>
    match validate_csv_schema t with
    | .error e => .error e
    | .ok _ => validateBuffers rest

/-- The batch count of optimize_routes:
(total_rows + batch_size - 1) // batch_size with Python floor division. -/
def batchCountI (total bs : Int) : Int := (total + bs - 1).fdiv bs

/-- The offsets batch_num * batch_size for batch_num in range(batches). -/
def offsetsOf (total : Nat) (bs : Int) : List Nat :=
  (List.range (batchCountI total bs).toNat).map (fun k => k * bs.toNat)

/-- The batch data frames: LIMIT batch_size OFFSET offset slices of the
combined table, in offset order. -/
def batchesOf {α : Type} (rows : List α) (bs : Int) : List (List α) :=
  (offsetsOf rows.length bs).map (fun off => (rows.drop off).take bs.toNat)

/-- Worker executions in completion-schedule order: the pool runs the
function once per scheduled input index. -/
def poolRun {α γ : Type} (f : α → γ) (xs : List α) (sched : List Nat) : List (Nat × γ) :=
  sched.filterMap (fun i => (xs.get? i).map (fun x => (i, f x)))

/-- Collect a list of per-batch outcomes into one outcome; a failure is
reported deterministically as the first failing input index (in the
pipeline no worker can fail after validation, so the choice is vacuous). -/
def gatherFirstError {ε γ : Type} : List (Except ε γ) → Except ε (List γ)
  | [] => .ok []
  | .error e :: _ => .error e
  | .ok a :: rest => (gatherFirstError rest).map (fun l => a :: l)

/-- Pool.map: workers run in completion-schedule order, and the results
are reassembled by input index, not by completion order. -/
def poolMap {α ε γ : Type} (sched : List Nat) (f : α → Except ε γ) (xs : List α) :
    Except ε (List γ) :=
  gatherFirstError ((List.range xs.length).filterMap
    (fun i => ((poolRun f xs sched).find? (fun en => decide (en.1 = i))).map (fun en => en.2)))

/-- Sequential map over the batch list: the reference the parallel
executor is compared against (the specification reading of section 4.5). -/
def mapExcept {α ε γ : Type} (f : α → Except ε γ) : List α → Except ε (List γ)
  | [] => .ok []
  | x :: xs =>
    match f x with
    | .error e => .error e
    | .ok y => (mapExcept f xs).map (fun l => y :: l)

/-- pd.concat over the per-batch frames: raises on an empty list,
otherwise concatenates the rows in list order. -/
def concatResults (gs : List Gdf) : Except PyError Gdf :=
  if gs.isEmpty then .error (.valueError "No objects to concatenate")
  else .ok ⟨outputColumns, (gs.map (fun g => g.rows)).flatten⟩

/-- optimize_routes of route_optimizer.py (single attempt, scheduled):
reject an empty buffer list, validate each buffer, combine the buffers in
order (the UNION ALL table), derive the batch count with floor division
(batch_size = 0 raises ZeroDivisionError; a negative batch_size with a
positive batch count makes the first LIMIT query fail, caught and
re-raised as the DuckDB OptimizationError), slice the batches, run
optimize_batch over them on the worker pool, and concatenate. -/
def optimizeRoutesSched (proj : String → ℚ × ℚ → ℚ × ℚ) (distFn : ℚ × ℚ → ℚ × ℚ → ℚ)
    (sched : List Nat) (buffers : List CsvTable) (batch_size : Int) : Except PyError Gdf :=
  if buffers.isEmpty then
    .error (.valueError "csv_data_list must be a non-empty list of StringIO objects")
  else
    match validateBuffers buffers with
    | .error e => .error e
    | .ok _ =>
      let combined := (buffers.map (fun t => t.rows)).flatten
      if batch_size = 0 then .error .zeroDivisionError
      else if batch_size < 0 ∧ 0 < batchCountI combined.length batch_size then
        .error (.optimizationError "DuckDB error: LIMIT must not be negative")
      else
        match poolMap sched (optimizeBatch proj distFn) (batchesOf combined batch_size) with
        | .error e => .error e
        | .ok gs => concatResults gs

/-- The sequential reference pipeline: identical to optimizeRoutesSched
except that the batches are mapped in input order by mapExcept. -/
def optimizeRoutesSequential (proj : String → ℚ × ℚ → ℚ × ℚ)
    (distFn : ℚ × ℚ → ℚ × ℚ → ℚ) (buffers : List CsvTable) (batch_size : Int) :
    Except PyError Gdf :=
  if buffers.isEmpty then
    .error (.valueError "csv_data_list must be a non-empty list of StringIO objects")
  else
    match validateBuffers buffers with
    | .error e => .error e
    | .ok _ =>
      let combined := (buffers.map (fun t => t.rows)).flatten
      if batch_size = 0 then .error .zeroDivisionError
      else if batch_size < 0 ∧ 0 < batchCountI combined.length batch_size then
        .error (.optimizationError "DuckDB error: LIMIT must not be negative")
      else
        match mapExcept (optimizeBatch proj distFn) (batchesOf combined batch_size) with
        | .error e => .error e
        | .ok gs => concatResults gs

/-- tenacity wait_exponential: multiplier times exp_base to the
attempt_number, clamped below by min and above by max. -/
def wait_exponential (multiplier mn mx : ℚ) (attempt_number : Nat) : ℚ :=
  max (max 0 mn) (min (multiplier * 2 ^ attempt_number) mx)

/-- The retry loop of the tenacity decorator with stop_after_attempt and
reraise: run attempt k (zero-based), stop on success; otherwise sleep
wait_exponential(1, 4, 10) of the one-based attempt number and retry,
reraising the last error once stop attempts were made.  Returns the
outcome, the number of attempts performed and the sleeps in order. -/
def retryGo {ε γ : Type} (f : Nat → Except ε γ) (stop : Nat) :
    Nat → Nat → List ℚ → (Except ε γ) × Nat × List ℚ
  | 0, k, ds => (f k, k + 1, ds.reverse)
  | fuel + 1, k, ds =>
    match f k with
    | .ok a => (.ok a, k + 1, ds.reverse)
    | .error e =>
      if k + 1 < stop then
        retryGo f stop fuel (k + 1) (wait_exponential 1 4 10 (k + 1) :: ds)
      else (.error e, k + 1, ds.reverse)

/-- retry(stop=stop_after_attempt(stop), wait=wait_exponential(multiplier=1,
min=4, max=10), reraise=True) applied to an attempt-indexed body. -/
def tenacityRetry {ε γ : Type} (stop : Nat) (f : Nat → Except ε γ) :
    (Except ε γ) × Nat × List ℚ :=
  retryGo f stop stop 0 []

/-- optimize_routes as decorated in the source: at most 3 attempts of the
same deterministic body. -/
def optimizeRoutesRetried (proj : String → ℚ × ℚ → ℚ × ℚ)
    (distFn : ℚ × ℚ → ℚ × ℚ → ℚ) (sched : List Nat) (buffers : List CsvTable)
    (batch_size : Int) : (Except PyError Gdf) × Nat × List ℚ :=
  tenacityRetry 3 (fun _ => optimizeRoutesSched proj distFn sched buffers batch_size)

/-- Settings.batch_size_positive of config/settings.py: the pydantic
validator rejecting a non-positive batch size with a configuration
error. -/
def batch_size_positive (v : Int) : Except String Int :=
  if v ≤ 0 then .error "batch_size must be a positive integer" else .ok v

/-- Identity projection, used to instantiate witnesses on concrete data. -/
def projId : String → ℚ × ℚ → ℚ × ℚ := fun _ pt => pt

/-- Constant-zero distance, a concrete nonnegative planar pseudo-metric
used to instantiate witnesses on concrete data. -/
def distZero : ℚ × ℚ → ℚ × ℚ → ℚ := fun _ _ => 0

/-! Concrete rows and buffers used to instantiate the witnesses. -/

def cRowA : Row := ⟨1, 40, -74, 41, -75, "2025-02-20 10:00:00"⟩

def cRowB : Row := ⟨2, 38, -72, 39, -73, "2025-02-20 10:05:00"⟩

def cBatchAB : List Row := [cRowA, cRowB]

/-- Concrete rows sharing delivery_id 7 but with different coordinates. -/
def cRow7a : Row := ⟨7, 40, -74, 41, -75, "2025-02-20 10:00:00"⟩

def cRow7b : Row := ⟨7, 38, -72, 39, -73, "2025-02-20 10:05:00"⟩

def cTable7a : CsvTable := ⟨expectedColumns, [cRow7a]⟩

def cTable7b : CsvTable := ⟨expectedColumns, [cRow7b]⟩

def cTableDup : CsvTable := ⟨expectedColumns, [cRow7a, cRow7b]⟩

def cTableAB : CsvTable := ⟨expectedColumns, [cRowA, cRowB]⟩

def cRowC : Row := ⟨3, 37, -71, 36, -70, "2025-02-20 10:10:00"⟩

def cTableABC : CsvTable := ⟨expectedColumns, [cRowA, cRowB, cRowC]⟩

/-! Structural lemmas about the canonical walk state. -/

theorem nodeOrder_length (n : Nat) : (nodeOrder n).length = 2 * n := by
  induction n with
  | zero => rfl
  | succ n ih => simp [nodeOrder, ih]; omega

theorem canonRev_length (i : Nat) : (canonRev i).length = 2 * i + 1 := by
  induction i with
  | zero => rfl
  | succ i ih => simp [canonRev, ih]; omega

theorem mem_canonRev (x : GNode) (i : Nat) :
    x ∈ canonRev i ↔ (∃ k, k ≤ i ∧ x = GNode.p k) ∨ (∃ k, k < i ∧ x = GNode.d k) := by
  induction i with
  | zero =>
    constructor
    · intro h
      simp only [canonRev, List.mem_singleton] at h
      exact Or.inl ⟨0, le_refl 0, h⟩
    · rintro (⟨k, hk, rfl⟩ | ⟨k, hk, rfl⟩)
      · have hk0 : k = 0 := Nat.le_zero.mp hk
        subst hk0
        simp [canonRev]
      · omega
  | succ i ih =>
    simp only [canonRev, List.mem_cons, ih]
    constructor
    · rintro (rfl | rfl | ⟨k, hk, rfl⟩ | ⟨k, hk, rfl⟩)
      · exact Or.inl ⟨i + 1, le_refl _, rfl⟩
      · exact Or.inr ⟨i, by omega, rfl⟩
      · exact Or.inl ⟨k, by omega, rfl⟩
      · exact Or.inr ⟨k, by omega, rfl⟩
    · rintro (⟨k, hk, rfl⟩ | ⟨k, hk, rfl⟩)
      · rcases Nat.lt_or_ge k (i + 1) with h | h
        · exact Or.inr (Or.inr (Or.inl ⟨k, by omega, rfl⟩))
        · have : k = i + 1 := by omega
          exact Or.inl (by rw [this])
      · rcases Nat.lt_or_ge k i with h | h
        · exact Or.inr (Or.inr (Or.inr ⟨k, h, rfl⟩))
        · have : k = i := by omega
          exact Or.inr (Or.inl (by rw [this]))

theorem p_mem_canonRev (k i : Nat) : GNode.p k ∈ canonRev i ↔ k ≤ i := by
  rw [mem_canonRev]; constructor
  · rintro (⟨m, hm, h⟩ | ⟨m, hm, h⟩)
    · cases h; exact hm
    · cases h
  · intro h; exact Or.inl ⟨k, h, rfl⟩

theorem d_mem_canonRev (k i : Nat) : GNode.d k ∈ canonRev i ↔ k < i := by
  rw [mem_canonRev]; constructor
  · rintro (⟨m, hm, h⟩ | ⟨m, hm, h⟩)
    · cases h
    · cases h; exact hm
  · intro h; exact Or.inr ⟨k, h, rfl⟩

theorem nodeOrderFrom_snoc (i c : Nat) :
    nodeOrderFrom i (c + 1) =
      nodeOrderFrom i c ++ [GNode.p (i + c), GNode.d (i + c)] := by
  induction c generalizing i with
  | zero => simp [nodeOrderFrom]
  | succ c ih =>
    calc nodeOrderFrom i (c + 2)
        = GNode.p i :: GNode.d i :: nodeOrderFrom (i + 1) (c + 1) := rfl
      _ = GNode.p i :: GNode.d i ::
            (nodeOrderFrom (i + 1) c ++ [GNode.p (i + 1 + c), GNode.d (i + 1 + c)]) := by
          rw [ih]
      _ = nodeOrderFrom i (c + 1) ++ [GNode.p (i + c + 1), GNode.d (i + c + 1)] := by
          simp [nodeOrderFrom]; omega

theorem nodeOrder_eq_append (i c : Nat) :
    nodeOrder (i + c) = nodeOrder i ++ nodeOrderFrom i c := by
  induction c with
  | zero => simp [nodeOrderFrom]
  | succ c ih =>
    have : i + (c + 1) = (i + c) + 1 := by omega
    rw [this]
    show nodeOrder (i + c) ++ [GNode.p (i + c), GNode.d (i + c)] = _
    rw [ih, nodeOrderFrom_snoc, List.append_assoc]

theorem canonRev_reverse (i : Nat) :
    (canonRev i).reverse = nodeOrder i ++ [GNode.p i] := by
  induction i with
  | zero => rfl
  | succ i ih =>
    show (GNode.p (i + 1) :: GNode.d i :: canonRev i).reverse = _
    simp only [List.reverse_cons, ih]
    show nodeOrder i ++ [GNode.p i] ++ [GNode.d i] ++ [GNode.p (i + 1)] = _
    simp [nodeOrder, List.append_assoc]

theorem mem_nodeOrder (x : GNode) (n : Nat) :
    x ∈ nodeOrder n ↔ ∃ k, k < n ∧ (x = GNode.p k ∨ x = GNode.d k) := by
  induction n with
  | zero =>
    constructor
    · intro hx
      exact absurd hx (List.not_mem_nil x)
    · rintro ⟨k, hk, _⟩
      exact absurd hk (by omega)
  | succ n ih =>
    simp only [nodeOrder, List.mem_append, ih, List.mem_cons, List.mem_singleton,
      List.not_mem_nil, or_false]
    constructor
    · rintro (⟨k, hk, h⟩ | rfl | rfl)
      · exact ⟨k, by omega, h⟩
      · exact ⟨n, by omega, Or.inl rfl⟩
      · exact ⟨n, by omega, Or.inr rfl⟩
    · rintro ⟨k, hk, h⟩
      rcases Nat.lt_or_ge k n with hlt | hge
      · exact Or.inl ⟨k, hlt, h⟩
      · have : k = n := by omega
        subst this
        rcases h with rfl | rfl
        · exact Or.inr (Or.inl rfl)
        · exact Or.inr (Or.inr rfl)

theorem mem_nodeOrderFrom (x : GNode) (i c : Nat) :
    x ∈ nodeOrderFrom i c ↔
      ∃ k, i ≤ k ∧ k < i + c ∧ (x = GNode.p k ∨ x = GNode.d k) := by
  induction c generalizing i with
  | zero =>
    constructor
    · intro hx
      exact absurd hx (List.not_mem_nil x)
    · rintro ⟨k, h1, h2, _⟩
      exact absurd h2 (by omega)
  | succ c ih =>
    simp only [nodeOrderFrom, List.mem_cons, ih]
    constructor
    · rintro (rfl | rfl | ⟨k, h1, h2, h⟩)
      · exact ⟨i, by omega, by omega, Or.inl rfl⟩
      · exact ⟨i, by omega, by omega, Or.inr rfl⟩
      · exact ⟨k, by omega, by omega, h⟩
    · rintro ⟨k, h1, h2, h⟩
      rcases Nat.lt_or_ge i k with hlt | hge
      · exact Or.inr (Or.inr ⟨k, by omega, by omega, h⟩)
      · have : k = i := by omega
        subst this
        rcases h with rfl | rfl
        · exact Or.inl rfl
        · exact Or.inr (Or.inl rfl)

theorem nodeOrder_split (n i : Nat) (hi : i < n) :
    nodeOrder n = nodeOrder i ++ nodeOrderFrom i (n - i) := by
  have := nodeOrder_eq_append i (n - i)
  rwa [Nat.add_sub_cancel' (le_of_lt hi)] at this

theorem nodeOrderFrom_cons (i c : Nat) (hc : 0 < c) :
    nodeOrderFrom i c = GNode.p i :: GNode.d i :: nodeOrderFrom (i + 1) (c - 1) := by
  obtain ⟨c, rfl⟩ : ∃ m, c = m + 1 := ⟨c - 1, by omega⟩
  rfl

theorem nodeOrder_get_even (n i : Nat) (hi : i < n) (h : 2 * i < (nodeOrder n).length) :
    (nodeOrder n).get ⟨2 * i, h⟩ = GNode.p i := by
  rw [List.get_eq_getElem, List.getElem_of_eq (nodeOrder_split n i hi),
    List.getElem_append_right (by rw [nodeOrder_length])]
  have hz : 2 * i - (nodeOrder i).length = 0 := by rw [nodeOrder_length]; omega
  simp only [nodeOrderFrom_cons i (n - i) (by omega), hz]
  rfl

theorem nodeOrder_get_odd (n i : Nat) (hi : i < n) (h : 2 * i + 1 < (nodeOrder n).length) :
    (nodeOrder n).get ⟨2 * i + 1, h⟩ = GNode.d i := by
  rw [List.get_eq_getElem, List.getElem_of_eq (nodeOrder_split n i hi),
    List.getElem_append_right (by rw [nodeOrder_length]; exact Nat.le_add_right (2 * i) 1)]
  have hz : 2 * i + 1 - (nodeOrder i).length = 1 := by rw [nodeOrder_length]; omega
  simp only [nodeOrderFrom_cons i (n - i) (by omega), hz]
  rfl

theorem nodeOrder_take_odd (n i : Nat) (hi : i < n) :
    (nodeOrder n).take (2 * i + 1) = nodeOrder i ++ [GNode.p i] := by
  rw [nodeOrder_split n i hi, nodeOrderFrom_cons i (n - i) (by omega)]
  rw [show nodeOrder i ++ GNode.p i :: GNode.d i :: nodeOrderFrom (i + 1) (n - i - 1) =
      (nodeOrder i ++ [GNode.p i]) ++ (GNode.d i :: nodeOrderFrom (i + 1) (n - i - 1)) by
    simp]
  exact List.take_left' (by simp [nodeOrder_length])

theorem nodeOrder_nodup (n : Nat) : (nodeOrder n).Nodup := by
  induction n with
  | zero => exact List.nodup_nil
  | succ n ih =>
    show (nodeOrder n ++ [GNode.p n, GNode.d n]).Nodup
    refine List.nodup_append.mpr ⟨ih, by simp, ?_⟩
    intro a ha hb
    rw [mem_nodeOrder] at ha
    obtain ⟨k, hk, hc⟩ := ha
    rcases hc with rfl | rfl <;> simp at hb <;> omega

theorem get_append_cons {α : Type} (pre : List α) (x : α) (rest : List α)
    (h : pre.length < (pre ++ x :: rest).length) :
    (pre ++ x :: rest).get ⟨pre.length, h⟩ = x := by
  rw [List.get_eq_getElem, List.getElem_append_right (Nat.le_refl _)]
  simp

theorem take_append_cons {α : Type} (pre : List α) (x : α) (rest : List α) :
    (pre ++ x :: rest).take (pre.length + 1) = pre ++ [x] := by
  rw [show pre ++ x :: rest = (pre ++ [x]) ++ rest by simp, List.take_left' (by simp)]

theorem get_append_cons2 {α : Type} (pre : List α) (x y : α) (rest : List α)
    (h : pre.length + 1 < (pre ++ x :: y :: rest).length) :
    (pre ++ x :: y :: rest).get ⟨pre.length + 1, h⟩ = y := by
  rw [List.get_eq_getElem, List.getElem_append_right (Nat.le_add_right _ 1)]
  simp

/-! Lemmas about the greedy choice. -/

theorem minByWeight_head (x0 : GNode × ℚ) (xs : List (GNode × ℚ))
    (h : ∀ a ∈ xs, ¬ a.2 < x0.2) : minByWeight x0 xs = x0 := by
  induction xs with
  | nil => rfl
  | cons a l ih =>
    show minByWeight (if a.2 < x0.2 then a else x0) l = x0
    rw [if_neg (h a (by simp))]
    exact ih (fun b hb => h b (by simp [hb]))

theorem crossFilter (w : Nat → Nat → ℚ) (i : Nat) (l : List Nat) :
    (((l.filter (fun j => decide (j ≠ i))).map (fun j => (GNode.d j, w i j))).filter
        (fun e => !(decide (e.1 ∈ canonRev i)))) =
      (l.filter (fun j => decide (i < j))).map (fun j => (GNode.d j, w i j)) := by
  induction l with
  | nil => rfl
  | cons a l ih =>
    rcases Nat.lt_trichotomy a i with hlt | rfl | hgt
    · rw [List.filter_cons_of_pos (by simp; omega), List.map_cons,
        List.filter_cons_of_neg (by simp [d_mem_canonRev]; omega),
        List.filter_cons_of_neg (by simp; omega)]
      exact ih
    · rw [List.filter_cons_of_neg (by simp), List.filter_cons_of_neg (by simp)]
      exact ih
    · rw [List.filter_cons_of_pos (by simp; omega), List.map_cons,
        List.filter_cons_of_pos (by simp [d_mem_canonRev]; omega),
        List.filter_cons_of_pos (by simp; omega), List.map_cons]
      rw [ih]

theorem adj_filter_p (n : Nat) (w : Nat → Nat → ℚ) (i : Nat) :
    ((adjOf n w (GNode.p i)).filter (fun e => !(decide (e.1 ∈ canonRev i)))) =
      (GNode.d i, 0) ::
        (((List.range n).filter (fun j => decide (i < j))).map (fun j => (GNode.d j, w i j))) := by
  show (((GNode.d i, 0) :: _).filter _) = _
  rw [List.filter_cons_of_pos (by simp [d_mem_canonRev]), crossFilter]

theorem pickNext_at_pickup (n : Nat) (w : Nat → Nat → ℚ)
    (hw : ∀ a b, 0 ≤ w a b) (i : Nat) :
    pickNext (adjOf n w) (nodeOrder n) (canonRev i) (GNode.p i) = some (GNode.d i) := by
  unfold pickNext
  rw [adj_filter_p]
  have hmin : minByWeight (GNode.d i, 0)
      (((List.range n).filter (fun j => decide (i < j))).map (fun j => (GNode.d j, w i j))) =
      (GNode.d i, 0) := by
    apply minByWeight_head
    intro a ha
    simp only [List.mem_map, List.mem_filter] at ha
    obtain ⟨j, _, rfl⟩ := ha
    simp only [not_lt]
    exact hw i j
  simp [hmin]

theorem pickNext_at_dropoff (n : Nat) (w : Nat → Nat → ℚ) (i : Nat)
    (h : i + 1 < n) :
    pickNext (adjOf n w) (nodeOrder n) (GNode.d i :: canonRev i) (GNode.d i) =
      some (GNode.p (i + 1)) := by
  have hsplit : nodeOrder n = nodeOrder (i + 1) ++ nodeOrderFrom (i + 1) (n - (i + 1)) := by
    have := nodeOrder_eq_append (i + 1) (n - (i + 1))
    rwa [Nat.add_sub_cancel' (by omega : i + 1 ≤ n)] at this
  have hpre : ((nodeOrder (i + 1)).filter
      (fun nd => !(decide (nd ∈ GNode.d i :: canonRev i)))) = [] := by
    rw [List.filter_eq_nil_iff]
    intro a ha
    rw [mem_nodeOrder] at ha
    obtain ⟨k, hk, hc⟩ := ha
    rcases hc with rfl | rfl
    · simp [p_mem_canonRev]
      omega
    · simp [d_mem_canonRev]
      omega
  have hsuf : ((nodeOrderFrom (i + 1) (n - (i + 1))).filter
      (fun nd => !(decide (nd ∈ GNode.d i :: canonRev i)))) =
      nodeOrderFrom (i + 1) (n - (i + 1)) := by
    rw [List.filter_eq_self]
    intro a ha
    rw [mem_nodeOrderFrom] at ha
    obtain ⟨k, hk1, _, hc⟩ := ha
    rcases hc with rfl | rfl
    · simp [p_mem_canonRev]
      omega
    · simp [d_mem_canonRev]
      omega
  have hfrom : nodeOrderFrom (i + 1) (n - (i + 1)) =
      GNode.p (i + 1) :: GNode.d (i + 1) :: nodeOrderFrom (i + 2) (n - (i + 2)) := by
    have hc : n - (i + 1) = (n - (i + 2)) + 1 := by omega
    rw [hc]
    rfl
  show ((nodeOrder n).filter (fun nd => !(decide (nd ∈ GNode.d i :: canonRev i)))).head? =
    some (GNode.p (i + 1))
  rw [hsplit, List.filter_append, hpre, hsuf, hfrom]
  rfl

theorem greedyLoop_succ (adj : GNode → List (GNode × ℚ)) (nodes : List GNode)
    (fuel : Nat) (current : GNode) (path visited : List GNode) :
    greedyLoop adj nodes (fuel + 1) current path visited =
      if visited.length < nodes.length then
        match pickNext adj nodes visited current with
        | none => path.reverse
        | some u => greedyLoop adj nodes fuel u (u :: path) (u :: visited)
      else path.reverse := rfl

/-- The heart of the development: with nonnegative distances, at pickup i
the zero-weight edge to its own dropoff is a first minimum, so the greedy
walk deterministically alternates through the rows in creation order. -/
theorem greedyLoop_canon (n : Nat) (w : Nat → Nat → ℚ) (hw : ∀ a b, 0 ≤ w a b) :
    ∀ fuel i, i < n → 2 * (n - i) ≤ fuel →
      greedyLoop (adjOf n w) (nodeOrder n) fuel (GNode.p i) (canonRev i) (canonRev i) =
        nodeOrder n := by
  intro fuel
  induction fuel using Nat.strong_induction_on with
  | _ fuel ih =>
    intro i hi hfuel
    obtain ⟨f, rfl⟩ : ∃ f, fuel = f + 2 := ⟨fuel - 2, by omega⟩
    rw [greedyLoop_succ, if_pos (by simp [canonRev_length, nodeOrder_length]; omega),
      pickNext_at_pickup n w hw i]
    show greedyLoop (adjOf n w) (nodeOrder n) (f + 1) (GNode.d i)
        (GNode.d i :: canonRev i) (GNode.d i :: canonRev i) = nodeOrder n
    rcases Nat.lt_or_ge (i + 1) n with hlt | hge
    · rw [greedyLoop_succ, if_pos (by simp [canonRev_length, nodeOrder_length]; omega),
        pickNext_at_dropoff n w i hlt]
      show greedyLoop (adjOf n w) (nodeOrder n) f (GNode.p (i + 1))
          (canonRev (i + 1)) (canonRev (i + 1)) = nodeOrder n
      exact ih f (by omega) (i + 1) hlt (by omega)
    · have hn : n = i + 1 := by omega
      subst hn
      rw [greedyLoop_succ, if_neg (by simp [canonRev_length, nodeOrder_length]; omega)]
      show (GNode.d i :: canonRev i).reverse = nodeOrder (i + 1)
      rw [List.reverse_cons, canonRev_reverse]
      show nodeOrder i ++ [GNode.p i] ++ [GNode.d i] = nodeOrder i ++ [GNode.p i, GNode.d i]
      rw [List.append_assoc]
      rfl

/-- The greedy walk of a nonempty batch graph visits the nodes exactly in
creation order p 0, d 0, p 1, d 1, ... -/
theorem greedyWalk_canon (n : Nat) (w : Nat → Nat → ℚ) (hw : ∀ a b, 0 ≤ w a b)
    (hn : 0 < n) :
    greedyWalk (adjOf n w) (nodeOrder n) (GNode.p 0) = nodeOrder n := by
  show greedyLoop (adjOf n w) (nodeOrder n) (nodeOrder n).length (GNode.p 0)
      (canonRev 0) (canonRev 0) = nodeOrder n
  exact greedyLoop_canon n w hw (nodeOrder n).length 0 hn
    (by rw [nodeOrder_length]; omega)

/-! From the canonical walk to the output frame of optimize_batch. -/

theorem nodeOrder_filter_pickup (n : Nat) :
    (nodeOrder n).filter isPickupNode = (List.range n).map GNode.p := by
  induction n with
  | zero => rfl
  | succ n ih =>
    show ((nodeOrder n ++ [GNode.p n, GNode.d n]).filter isPickupNode) = _
    rw [List.filter_append, ih, List.range_succ, List.map_append]
    rfl

theorem nodeOut_pick_rows (batch : List Row) (m : Nat) :
    ((((nodeOrder m).map (nodeOut batch)).filter
        (fun pr => decide (pr.1 = PType.pickup))).map (fun pr => pr.2)) =
      (List.range m).map
        (fun i => ((batch.get? i).map (fun r => rowOut r (pickupGeom r))).getD outDefault) := by
  induction m with
  | zero => rfl
  | succ m ih =>
    show (((nodeOrder m ++ [GNode.p m, GNode.d m]).map (nodeOut batch)).filter _).map _ = _
    rw [List.map_append, List.filter_append, List.map_append, ih, List.range_succ,
      List.map_append]
    rfl

theorem range_map_get? {α β : Type} (xs : List α) (f : α → β) (dflt : β) :
    (List.range xs.length).map (fun i => ((xs.get? i).map f).getD dflt) = xs.map f := by
  induction xs with
  | nil => rfl
  | cons x xs ih =>
    show (List.range (xs.length + 1)).map _ = _
    rw [List.range_succ_eq_map, List.map_cons, List.map_map]
    show _ :: (List.range xs.length).map
        (fun i => (((x :: xs).get? (Nat.succ i)).map f).getD dflt) = _
    rw [show (fun i => (((x :: xs).get? (Nat.succ i)).map f).getD dflt) =
        (fun i => ((xs.get? i).map f).getD dflt) from rfl, ih]
    rfl

theorem dedupByKey_of_nodup (l : List OutRow) (seen : List Int)
    (hn : (l.map (fun r => r.delivery_id)).Nodup)
    (hs : ∀ r ∈ l, r.delivery_id ∉ seen) : dedupByKey l seen = l := by
  induction l generalizing seen with
  | nil => rfl
  | cons r rs ih =>
    have hm : r.delivery_id ∉ seen := hs r (by simp)
    show dedupByKey (r :: rs) seen = r :: rs
    rw [dedupByKey, if_neg hm]
    have hn' : (rs.map (fun r => r.delivery_id)).Nodup := (List.nodup_cons.mp hn).2
    have hhead : r.delivery_id ∉ rs.map (fun r => r.delivery_id) :=
      (List.nodup_cons.mp hn).1
    rw [ih (r.delivery_id :: seen) hn' ?_]
    intro q hq
    simp only [List.mem_cons]
    rintro (h | h)
    · exact hhead (h ▸ List.mem_map_of_mem (fun r => r.delivery_id) hq)
    · exact hs q (by simp [hq]) h

/-- Under the hypotheses met by every validated nonempty batch (unique
keys, nonnegative planar distances) optimize_batch returns exactly one
output row per input row, in input order, carrying the pickup geometry. -/
theorem optimizeBatch_eq (proj : String → ℚ × ℚ → ℚ × ℚ)
    (distFn : ℚ × ℚ → ℚ × ℚ → ℚ) (batch : List Row) (hne : batch ≠ [])
    (hnodup : (batch.map (fun r => r.delivery_id)).Nodup)
    (hd : ∀ a b, 0 ≤ distFn a b) :
    optimizeBatch proj distFn batch =
      .ok ⟨outputColumns, batch.map (fun r => rowOut r (pickupGeom r))⟩ := by
  obtain ⟨b, bs, rfl⟩ : ∃ b bs, batch = b :: bs := by
    cases batch with
    | nil => exact absurd rfl hne
    | cons b bs => exact ⟨b, bs, rfl⟩
  have hw : ∀ i j, 0 ≤ batchWeight proj distFn (b :: bs) i j := fun i j => hd _ _
  have hn : 0 < (b :: bs).length := by simp
  unfold optimizeBatch
  rw [if_neg (by simp)]
  dsimp only
  rw [nodeOrder_filter_pickup,
    show List.range (b :: bs).length = 0 :: (List.range bs.length).map Nat.succ from
      List.range_succ_eq_map bs.length,
    List.map_cons]
  dsimp only
  rw [greedyWalk_canon (b :: bs).length (batchWeight proj distFn (b :: bs)) hw hn]
  rw [nodeOut_pick_rows, range_map_get?]
  have hids : (((b :: bs).map (fun r => rowOut r (pickupGeom r))).map
      (fun r => r.delivery_id)).Nodup := by
    rw [List.map_map]
    exact hnodup
  rw [dedupByKey_of_nodup _ [] hids (fun r _ => List.not_mem_nil _)]

/-! Concrete data used by the witnesses. -/

theorem distZero_nonneg : ∀ a b, 0 ≤ distZero a b := fun _ _ => le_refl 0

theorem filter_count_pickout (batch : List Row) (k : Int)
    (hnodup : (batch.map (fun r => r.delivery_id)).Nodup) :
    ((batch.map (fun r => rowOut r (pickupGeom r))).filter
        (fun r => decide (r.delivery_id = k))).length =
      if k ∈ batch.map (fun r => r.delivery_id) then 1 else 0 := by
  induction batch with
  | nil => simp
  | cons b bs ih =>
    have hnod' := (List.nodup_cons.mp hnodup).2
    have hnotin := (List.nodup_cons.mp hnodup).1
    by_cases hk : b.delivery_id = k
    · rw [List.map_cons, List.filter_cons_of_pos (by simp [rowOut, hk])]
      have hnilf : ((bs.map (fun r => rowOut r (pickupGeom r))).filter
          (fun r => decide (r.delivery_id = k))) = [] := by
        rw [List.filter_eq_nil_iff]
        intro a ha
        obtain ⟨q, hq, rfl⟩ := List.mem_map.mp ha
        simp only [rowOut, decide_eq_true_eq]
        intro hqk
        refine hnotin ?_
        show b.delivery_id ∈ bs.map (fun r => r.delivery_id)
        rw [hk, ← hqk]
        exact List.mem_map_of_mem _ hq
      rw [if_pos (by simp [hk.symm])]
      simp [hnilf]
    · rw [List.map_cons, List.filter_cons_of_neg (by simp [rowOut, hk]), ih hnod']
      by_cases hmem : k ∈ bs.map (fun r => r.delivery_id)
      · rw [if_pos hmem, if_pos (by simp [List.mem_cons, hmem])]
      · rw [if_neg hmem, if_neg ?_]
        simp only [List.map_cons, List.mem_cons]
        rintro (h | h)
        · exact hk h.symm
        · exact hmem h

/-- C1: for every valid nonempty batch (six typed columns, unique
delivery_id values, nonnegative planar distances as produced by the real
metric) optimize_batch succeeds and its route set holds exactly one row
per distinct delivery_id of the batch, never more, never fewer. -/
theorem optimize_batch_one_row_per_delivery_id (proj : String → ℚ × ℚ → ℚ × ℚ)
    (distFn : ℚ × ℚ → ℚ × ℚ → ℚ) (batch : List Row) (hne : batch ≠ [])
    (hnodup : (batch.map (fun r => r.delivery_id)).Nodup)
    (hd : ∀ a b, 0 ≤ distFn a b) :
    ∃ g, optimizeBatch proj distFn batch = Except.ok g ∧
      ∀ k : Int, ((g.rows.filter (fun r => decide (r.delivery_id = k))).length) =
        if k ∈ batch.map (fun r => r.delivery_id) then 1 else 0 := by
  refine ⟨⟨outputColumns, batch.map (fun r => rowOut r (pickupGeom r))⟩,
    optimizeBatch_eq proj distFn batch hne hnodup hd, ?_⟩
  intro k
  exact filter_count_pickout batch k hnodup

/-- Witness for C1 on a concrete two-row batch. -/
theorem optimize_batch_one_row_per_delivery_id_witness :
    ∃ g, optimizeBatch projId distZero cBatchAB = Except.ok g ∧
      ∀ k : Int, ((g.rows.filter (fun r => decide (r.delivery_id = k))).length) =
        if k ∈ cBatchAB.map (fun r => r.delivery_id) then 1 else 0 :=
  optimize_batch_one_row_per_delivery_id projId distZero cBatchAB
    (by decide) (by decide) distZero_nonneg

/-- C9: optimize_batch applied to an empty batch returns the empty route
set still carrying the seven output columns, raising no error. -/
theorem optimize_batch_empty_ok (proj : String → ℚ × ℚ → ℚ × ℚ)
    (distFn : ℚ × ℚ → ℚ × ℚ → ℚ) :
    optimizeBatch proj distFn [] = Except.ok ⟨outputColumns, []⟩ := rfl

/-- C10: on the delivery graph of every nonempty batch the greedy loop
terminates (any fuel of at least the node count returns the finished
path) and the resulting path visits every node of the graph exactly once:
it is duplicate-free and has the same members as the node set. -/
theorem greedy_walk_terminates_and_covers (proj : String → ℚ × ℚ → ℚ × ℚ)
    (distFn : ℚ × ℚ → ℚ × ℚ → ℚ) (batch : List Row) (hne : batch ≠ [])
    (hd : ∀ a b, 0 ≤ distFn a b) :
    (∀ fuel, 2 * batch.length ≤ fuel →
        greedyLoop (adjOf batch.length (batchWeight proj distFn batch))
          (nodeOrder batch.length) fuel (GNode.p 0) [GNode.p 0] [GNode.p 0] =
          nodeOrder batch.length) ∧
      (greedyWalk (adjOf batch.length (batchWeight proj distFn batch))
          (nodeOrder batch.length) (GNode.p 0)).Nodup ∧
      ∀ nd, nd ∈ greedyWalk (adjOf batch.length (batchWeight proj distFn batch))
          (nodeOrder batch.length) (GNode.p 0) ↔ nd ∈ nodeOrder batch.length := by
  have h0 : 0 < batch.length := List.length_pos.mpr hne
  have hww : ∀ i j, 0 ≤ batchWeight proj distFn batch i j := fun i j => hd _ _
  have hwalk : greedyWalk (adjOf batch.length (batchWeight proj distFn batch))
      (nodeOrder batch.length) (GNode.p 0) = nodeOrder batch.length :=
    greedyWalk_canon batch.length (batchWeight proj distFn batch) hww h0
  refine ⟨?_, ?_, ?_⟩
  · intro fuel hfuel
    exact greedyLoop_canon batch.length (batchWeight proj distFn batch) hww fuel 0 h0
      (by omega)
  · rw [hwalk]
    exact nodeOrder_nodup batch.length
  · intro nd
    rw [hwalk]

/-- Witness for C10 on a concrete two-row batch. -/
theorem greedy_walk_terminates_and_covers_witness :
    (∀ fuel, 2 * cBatchAB.length ≤ fuel →
        greedyLoop (adjOf cBatchAB.length (batchWeight projId distZero cBatchAB))
          (nodeOrder cBatchAB.length) fuel (GNode.p 0) [GNode.p 0] [GNode.p 0] =
          nodeOrder cBatchAB.length) ∧
      (greedyWalk (adjOf cBatchAB.length (batchWeight projId distZero cBatchAB))
          (nodeOrder cBatchAB.length) (GNode.p 0)).Nodup ∧
      ∀ nd, nd ∈ greedyWalk (adjOf cBatchAB.length (batchWeight projId distZero cBatchAB))
          (nodeOrder cBatchAB.length) (GNode.p 0) ↔ nd ∈ nodeOrder cBatchAB.length :=
  greedy_walk_terminates_and_covers projId distZero cBatchAB (by decide) distZero_nonneg

/-- C3: at every step of the greedy walk of optimize_batch on a valid
batch at which the current node still has unvisited out-neighbors, the
successor appended to the path attains the minimum edge weight among
them, and among the unvisited out-neighbors tying for that minimum it
carries the smallest numeric node identifier, so the choice is a
deterministic function of the weights and identifiers alone. -/
theorem greedy_step_min_weight_tiebreak (proj : String → ℚ × ℚ → ℚ × ℚ)
    (distFn : ℚ × ℚ → ℚ × ℚ → ℚ) (batch : List Row) (hne : batch ≠ [])
    (hd : ∀ a b, 0 ≤ distFn a b) :
    ∀ (pre suf : List GNode) (cur nxt : GNode),
      greedyWalk (adjOf batch.length (batchWeight proj distFn batch))
          (nodeOrder batch.length) (GNode.p 0) = pre ++ cur :: nxt :: suf →
      ∀ nbrs : List (GNode × ℚ),
        nbrs = (adjOf batch.length (batchWeight proj distFn batch) cur).filter
          (fun e => !(decide (e.1 ∈ pre ++ [cur]))) →
        nbrs ≠ [] →
        ∃ wt : ℚ, (nxt, wt) ∈ nbrs ∧ (∀ e ∈ nbrs, wt ≤ e.2) ∧
          (∀ e ∈ nbrs, e.2 = wt → gidx nxt ≤ gidx e.1) := by
  have h0 : 0 < batch.length := List.length_pos.mpr hne
  have hww : ∀ i j, 0 ≤ batchWeight proj distFn batch i j := fun i j => hd _ _
  intro pre suf cur nxt heq nbrs hnbrs hnonempty
  rw [greedyWalk_canon batch.length (batchWeight proj distFn batch) hww h0] at heq
  have hlen2 : pre.length + 2 ≤ 2 * batch.length := by
    have := congrArg List.length heq
    simp [nodeOrder_length] at this
    omega
  have hltcur : pre.length < (nodeOrder batch.length).length := by
    rw [nodeOrder_length]; omega
  have hcur : (nodeOrder batch.length).get ⟨pre.length, hltcur⟩ = cur := by
    rw [List.get_eq_getElem, List.getElem_of_eq heq]
    rw [← List.get_eq_getElem _ ⟨pre.length, heq ▸ hltcur⟩]
    exact get_append_cons pre cur (nxt :: suf) (heq ▸ hltcur)
  have hltnxt : pre.length + 1 < (nodeOrder batch.length).length := by
    rw [nodeOrder_length]; omega
  have hnxt : (nodeOrder batch.length).get ⟨pre.length + 1, hltnxt⟩ = nxt := by
    rw [List.get_eq_getElem, List.getElem_of_eq heq]
    rw [← List.get_eq_getElem _ ⟨pre.length + 1, heq ▸ hltnxt⟩]
    exact get_append_cons2 pre cur nxt suf (heq ▸ hltnxt)
  have htake : (nodeOrder batch.length).take (pre.length + 1) = pre ++ [cur] := by
    rw [heq, take_append_cons]
  rcases Nat.even_or_odd pre.length with he | ho
  · obtain ⟨i, hti⟩ : ∃ i, pre.length = 2 * i := by
      obtain ⟨i, hi⟩ := he; exact ⟨i, by omega⟩
    have hi_n : i < batch.length := by omega
    have hcuri : cur = GNode.p i := by
      rw [← hcur]
      have := nodeOrder_get_even batch.length i hi_n (by rw [nodeOrder_length]; omega)
      rw [← this]
      congr 1
      exact Fin.ext (by simp [hti])
    have hnxti : nxt = GNode.d i := by
      rw [← hnxt]
      have := nodeOrder_get_odd batch.length i hi_n (by rw [nodeOrder_length]; omega)
      rw [← this]
      congr 1
      exact Fin.ext (by simp [hti])
    have hvis : pre ++ [cur] = (canonRev i).reverse := by
      rw [← htake, canonRev_reverse, ← nodeOrder_take_odd batch.length i hi_n]
      congr 1
      omega
    rw [hcuri] at hvis
    rw [hcuri] at hnbrs
    rw [hvis] at hnbrs
    have hcongr : ((adjOf batch.length (batchWeight proj distFn batch) (GNode.p i)).filter
        (fun e => !(decide (e.1 ∈ (canonRev i).reverse)))) =
        ((adjOf batch.length (batchWeight proj distFn batch) (GNode.p i)).filter
          (fun e => !(decide (e.1 ∈ canonRev i)))) :=
      List.filter_congr (fun a _ => by simp [List.mem_reverse])
    rw [hcongr, adj_filter_p] at hnbrs
    subst hnbrs
    refine ⟨0, ?_, ?_, ?_⟩
    · rw [hnxti]
      exact List.mem_cons_self _ _
    · intro e hee
      rcases List.mem_cons.mp hee with rfl | hmem
      · exact le_refl 0
      · obtain ⟨j, _, rfl⟩ := List.mem_map.mp hmem
        exact hww i j
    · intro e hee _
      rw [hnxti]
      rcases List.mem_cons.mp hee with rfl | hmem
      · exact Nat.le_refl _
      · obtain ⟨j, hj, rfl⟩ := List.mem_map.mp hmem
        have : i < j := by
          have := (List.mem_filter.mp hj).2
          simpa using this
        show i ≤ j
        omega
  · obtain ⟨i, hti⟩ := ho
    have hi_n : i < batch.length := by omega
    have hcuri : cur = GNode.d i := by
      rw [← hcur]
      have := nodeOrder_get_odd batch.length i hi_n (by rw [nodeOrder_length]; omega)
      rw [← this]
      congr 1
      exact Fin.ext (by simp [hti])
    rw [hcuri] at hnbrs
    rw [show adjOf batch.length (batchWeight proj distFn batch) (GNode.d i) = [] from rfl,
      List.filter_nil] at hnbrs
    exact absurd hnbrs hnonempty

/-- Witness for C3: the first step of the walk on the concrete two-row
batch has unvisited neighbors d 0 at weight 0 and d 1 at weight 4, and
the successor d 0 is the minimum. -/
theorem greedy_step_min_weight_tiebreak_witness :
    ∃ wt : ℚ, (GNode.d 0, wt) ∈ [(GNode.d 0, (0 : ℚ)), (GNode.d 1, 0)] ∧
      (∀ e ∈ [(GNode.d 0, (0 : ℚ)), (GNode.d 1, 0)], wt ≤ e.2) ∧
      (∀ e ∈ [(GNode.d 0, (0 : ℚ)), (GNode.d 1, 0)], e.2 = wt →
        gidx (GNode.d 0) ≤ gidx e.1) :=
  greedy_step_min_weight_tiebreak projId distZero cBatchAB (by decide) distZero_nonneg
    [] [GNode.p 1, GNode.d 1] (GNode.p 0) (GNode.d 0) (by decide)
    [(GNode.d 0, (0 : ℚ)), (GNode.d 1, 0)] (by decide) (by decide)

/-! Partition lemmas (claim C4). -/

theorem fdiv_ofNat (m k : Nat) :
    Int.fdiv (Int.ofNat m) (Int.ofNat k) = Int.ofNat (m / k) := (Int.ofNat_fdiv m k).symm

theorem batchCountI_toNat (total bsN : Nat) (h : 0 < bsN) :
    (batchCountI (total : Int) (bsN : Int)).toNat = (total + bsN - 1) / bsN := by
  unfold batchCountI
  have hcast : ((total : Int) + (bsN : Int) - 1) = (((total + bsN - 1 : Nat)) : Int) := by
    omega
  rw [hcast]
  rw [show (((total + bsN - 1 : Nat)) : Int) = Int.ofNat (total + bsN - 1) from rfl,
    show ((bsN : Nat) : Int) = Int.ofNat bsN from rfl, fdiv_ofNat]
  rfl

theorem join_slices {α : Type} (bs : Nat) :
    ∀ (c : Nat) (rows : List α), rows.length ≤ c * bs →
      ((List.range c).map (fun k => (rows.drop (k * bs)).take bs)).flatten = rows := by
  intro c
  induction c with
  | zero =>
    intro rows h
    simp only [Nat.zero_mul, Nat.le_zero] at h
    rw [List.eq_nil_of_length_eq_zero h]
    rfl
  | succ c ih =>
    intro rows h
    rw [Nat.succ_mul] at h
    rw [List.range_succ_eq_map, List.map_cons, List.flatten_cons, List.map_map]
    have hcomp : ((fun k => (rows.drop (k * bs)).take bs) ∘ Nat.succ) =
        (fun k => ((rows.drop bs).drop (k * bs)).take bs) := by
      funext k
      show (rows.drop (Nat.succ k * bs)).take bs = ((rows.drop bs).drop (k * bs)).take bs
      rw [List.drop_drop]
      congr 1
      rw [Nat.succ_mul, Nat.add_comm]
    rw [hcomp, ih (rows.drop bs) (by simp; omega)]
    simp

/-- C4: for every row list and positive batch size, the partitioning step
of optimize_routes produces exactly ceil(total / batch_size) batches at
offsets 0, bs, 2 bs, ..., each batch the LIMIT/OFFSET slice at its
offset, and the batches concatenate back to the whole input: contiguous,
non-overlapping, union exactly the full row range. -/
theorem partition_batches_exact_cover {α : Type} (rows : List α) (bs : Int)
    (hbs : 0 < bs) :
    (batchesOf rows bs).length = (rows.length + bs.toNat - 1) / bs.toNat ∧
      offsetsOf rows.length bs =
        (List.range ((rows.length + bs.toNat - 1) / bs.toNat)).map (fun k => k * bs.toNat) ∧
      (batchesOf rows bs).flatten = rows ∧
      ∀ k (hk : k < (batchesOf rows bs).length),
        (batchesOf rows bs).get ⟨k, hk⟩ = (rows.drop (k * bs.toNat)).take bs.toNat := by
  have hbsN : 0 < bs.toNat := by omega
  have hbs' : bs = (bs.toNat : Int) := by omega
  have hcount : (batchCountI rows.length bs).toNat =
      (rows.length + bs.toNat - 1) / bs.toNat := by
    rw [hbs']
    exact batchCountI_toNat rows.length bs.toNat hbsN
  have hoff : offsetsOf rows.length bs =
      (List.range ((rows.length + bs.toNat - 1) / bs.toNat)).map (fun k => k * bs.toNat) := by
    unfold offsetsOf
    rw [hcount]
  have hbatches : batchesOf rows bs =
      (List.range ((rows.length + bs.toNat - 1) / bs.toNat)).map
        (fun k => (rows.drop (k * bs.toNat)).take bs.toNat) := by
    unfold batchesOf
    rw [hoff, List.map_map]
    rfl
  refine ⟨?_, hoff, ?_, ?_⟩
  · rw [hbatches, List.length_map, List.length_range]
  · rw [hbatches]
    apply join_slices
    have hdm := Nat.div_add_mod (rows.length + bs.toNat - 1) bs.toNat
    have hlt := Nat.mod_lt (rows.length + bs.toNat - 1) hbsN
    have hmc : ((rows.length + bs.toNat - 1) / bs.toNat) * bs.toNat =
        bs.toNat * ((rows.length + bs.toNat - 1) / bs.toNat) := Nat.mul_comm _ _
    omega
  · intro k hk
    rw [List.get_eq_getElem, List.getElem_of_eq hbatches, List.getElem_map,
      List.getElem_range]

/-- Witness for C4 at three rows and batch size two. -/
theorem partition_batches_exact_cover_witness :
    (batchesOf [0, 1, 2] (2 : Int)).length = (([0, 1, 2] : List Nat).length + (2 : Int).toNat - 1) / (2 : Int).toNat ∧
      offsetsOf ([0, 1, 2] : List Nat).length 2 =
        (List.range ((([0, 1, 2] : List Nat).length + (2 : Int).toNat - 1) / (2 : Int).toNat)).map
          (fun k => k * (2 : Int).toNat) ∧
      (batchesOf ([0, 1, 2] : List Nat) 2).flatten = [0, 1, 2] ∧
      ∀ k (hk : k < (batchesOf ([0, 1, 2] : List Nat) 2).length),
        (batchesOf ([0, 1, 2] : List Nat) 2).get ⟨k, hk⟩ =
          (([0, 1, 2] : List Nat).drop (k * (2 : Int).toNat)).take (2 : Int).toNat :=
  partition_batches_exact_cover [0, 1, 2] 2 (by decide)

/-! Worker pool lemmas (claim C5). -/

theorem poolRun_find {α γ : Type} (f : α → γ) (xs : List α) (sched : List Nat)
    (i : Nat) (hi : i < xs.length) (hmem : i ∈ sched) :
    (poolRun f xs sched).find? (fun en => decide (en.1 = i)) =
      some (i, f (xs.get ⟨i, hi⟩)) := by
  induction sched with
  | nil => cases hmem
  | cons j rest ih =>
    show ((j :: rest).filterMap (fun m => (xs.get? m).map (fun x => (m, f x)))).find?
        (fun en => decide (en.1 = i)) = _
    rw [List.filterMap_cons]
    by_cases hj : j = i
    · subst hj
      rw [List.get?_eq_get hi]
      show (((j, f (xs.get ⟨j, hi⟩))) :: _).find? _ = _
      rw [List.find?_cons_of_pos _ (by simp)]
    · cases hget : xs.get? j with
      | none =>
        exact ih (by rcases List.mem_cons.mp hmem with h | h; exact absurd h.symm hj; exact h)
      | some x =>
        show (((j, f x)) :: _).find? _ = _
        rw [List.find?_cons_of_neg _ (by simp [hj])]
        exact ih (by rcases List.mem_cons.mp hmem with h | h; exact absurd h.symm hj; exact h)

theorem filterMap_range_eq_map {α β : Type} (xs : List α) (F : α → β) :
    ∀ g : Nat → Option β,
      (∀ i (h : i < xs.length), g i = some (F (xs.get ⟨i, h⟩))) →
      (List.range xs.length).filterMap g = xs.map F := by
  induction xs with
  | nil => intro g _; rfl
  | cons x l ih =>
    intro g hg
    rw [show (x :: l).length = l.length + 1 from rfl, List.range_succ_eq_map,
      List.filterMap_cons, hg 0 (by simp), List.filterMap_map]
    show F x :: (List.range l.length).filterMap (g ∘ Nat.succ) = F x :: l.map F
    congr 1
    exact ih (g ∘ Nat.succ) (fun i h => hg (i + 1) (by simpa using h))

theorem gatherFirstError_map {α ε γ : Type} (f : α → Except ε γ) (xs : List α) :
    gatherFirstError (xs.map f) = mapExcept f xs := by
  induction xs with
  | nil => rfl
  | cons x l ih =>
    show gatherFirstError (f x :: l.map f) = mapExcept f (x :: l)
    cases hfx : f x with
    | error e =>
      show gatherFirstError (Except.error e :: l.map f) = _
      rw [show mapExcept f (x :: l) = match f x with
        | .error e => .error e
        | .ok y => (mapExcept f l).map (fun ys => y :: ys) from rfl, hfx]
      rfl
    | ok y =>
      show gatherFirstError (Except.ok y :: l.map f) = _
      rw [show mapExcept f (x :: l) = match f x with
        | .error e => .error e
        | .ok y => (mapExcept f l).map (fun ys => y :: ys) from rfl, hfx]
      show (gatherFirstError (l.map f)).map (fun ys => y :: ys) = _
      rw [ih]

theorem poolMap_eq_mapExcept {α ε γ : Type} (sched : List Nat) (f : α → Except ε γ)
    (xs : List α) (hperm : sched.Perm (List.range xs.length)) :
    poolMap sched f xs = mapExcept f xs := by
  unfold poolMap
  have hfm : ((List.range xs.length).filterMap
      (fun i => ((poolRun f xs sched).find? (fun en => decide (en.1 = i))).map
        (fun en => en.2))) = xs.map f := by
    apply filterMap_range_eq_map
    intro i h
    rw [poolRun_find f xs sched i h (hperm.mem_iff.mpr (List.mem_range.mpr h))]
    rfl
  rw [hfm, gatherFirstError_map]

/-- C5: for every completion schedule that is a permutation of the batch
indices, the scheduled pool execution of optimize_routes returns exactly
the sequential pipeline result: the concatenation of optimize_batch over
the batches in partition order, independent of completion order. -/
theorem optimize_routes_schedule_independent (proj : String → ℚ × ℚ → ℚ × ℚ)
    (distFn : ℚ × ℚ → ℚ × ℚ → ℚ) (buffers : List CsvTable) (bs : Int)
    (sched : List Nat)
    (hperm : sched.Perm (List.range
      (batchesOf ((buffers.map (fun t => t.rows)).flatten) bs).length)) :
    optimizeRoutesSched proj distFn sched buffers bs =
      optimizeRoutesSequential proj distFn buffers bs := by
  unfold optimizeRoutesSched optimizeRoutesSequential
  by_cases hbuf : buffers.isEmpty
  · rw [if_pos hbuf, if_pos hbuf]
  · rw [if_neg hbuf, if_neg hbuf]
    cases hval : validateBuffers buffers with
    | error e => rfl
    | ok u =>
      dsimp only
      by_cases hz : bs = 0
      · rw [if_pos hz, if_pos hz]
      · rw [if_neg hz, if_neg hz]
        by_cases hneg : bs < 0 ∧
            0 < batchCountI ((buffers.map (fun t => t.rows)).flatten).length bs
        · rw [if_pos hneg, if_pos hneg]
        · rw [if_neg hneg, if_neg hneg]
          rw [poolMap_eq_mapExcept sched _ _ hperm]

/-! Validation lemmas (claims C2 and C6). -/

theorem validate_csv_schema_dup (t : CsvTable) (hcols : t.columns ≠ [])
    (hschema : ∀ c ∈ expectedColumns, c ∈ t.columns)
    (hdup : ¬ (t.rows.map (fun r => r.delivery_id)).Nodup) :
    validate_csv_schema t =
      .error (.optimizationError "Duplicate delivery_id values found") := by
  unfold validate_csv_schema
  rw [if_neg hcols, if_neg (not_not_intro hschema), if_pos hdup]

theorem validateBuffers_ok (buffers : List CsvTable)
    (h : ∀ t ∈ buffers, validate_csv_schema t = .ok ()) :
    validateBuffers buffers = .ok () := by
  induction buffers with
  | nil => rfl
  | cons t rest ih =>
    show (match validate_csv_schema t with
      | .error e => Except.error e
      | .ok _ => validateBuffers rest) = Except.ok ()
    rw [h t (by simp)]
    exact ih (fun q hq => h q (by simp [hq]))

theorem validateBuffers_error_at (buffers : List CsvTable) :
    ∀ (k : Nat) (hk : k < buffers.length),
      (∀ j (hj : j < k), validate_csv_schema (buffers.get ⟨j, lt_trans hj hk⟩) = .ok ()) →
      ∀ e, validate_csv_schema (buffers.get ⟨k, hk⟩) = .error e →
      validateBuffers buffers = .error e := by
  induction buffers with
  | nil =>
    intro k hk
    exact absurd hk (by simp)
  | cons t rest ih =>
    intro k hk hearlier e herr
    cases k with
    | zero =>
      show (match validate_csv_schema t with
        | .error e => Except.error e
        | .ok _ => validateBuffers rest) = Except.error e
      rw [show (t :: rest).get ⟨0, hk⟩ = t from rfl] at herr
      rw [herr]
    | succ m =>
      have ht : validate_csv_schema t = .ok () := hearlier 0 (Nat.succ_pos m)
      show (match validate_csv_schema t with
        | .error e => Except.error e
        | .ok _ => validateBuffers rest) = Except.error e
      rw [ht]
      exact ih m (Nat.lt_of_succ_lt_succ hk)
        (fun j hj => hearlier (j + 1) (Nat.succ_lt_succ hj)) e herr

/-- Counterexample to C2: two buffers that share delivery_id 7, so the
combined dataset has a duplicate key, yet optimize_routes runs to
completion and returns a route set (the duplicate is silently merged by
the per-batch deduplication) instead of failing with the duplicate-key
validation error. -/
theorem cross_buffer_duplicate_not_detected :
    ¬ (((([cTable7a, cTable7b].map (fun t => t.rows)).flatten).map
        (fun r => r.delivery_id)).Nodup) ∧
      optimizeRoutesSched projId distZero [0] [cTable7a, cTable7b] 100 =
        Except.ok ⟨outputColumns, [rowOut cRow7a (pickupGeom cRow7a)]⟩ := by
  constructor
  · decide
  · decide

/-- C2 amended: duplicate delivery_id values are detected only within a
single buffer: whenever some buffer has an internal duplicate (and the
buffers before it validate), optimize_routes aborts with the
duplicate-key validation error before any batch is sliced or dispatched;
duplicates split across different buffers are not checked. -/
theorem duplicate_detected_within_buffer (proj : String → ℚ × ℚ → ℚ × ℚ)
    (distFn : ℚ × ℚ → ℚ × ℚ → ℚ) (sched : List Nat) (buffers : List CsvTable)
    (bs : Int) (k : Nat) (hk : k < buffers.length)
    (hearlier : ∀ j (hj : j < k),
      validate_csv_schema (buffers.get ⟨j, lt_trans hj hk⟩) = .ok ())
    (hcols : (buffers.get ⟨k, hk⟩).columns ≠ [])
    (hschema : ∀ c ∈ expectedColumns, c ∈ (buffers.get ⟨k, hk⟩).columns)
    (hdup : ¬ ((buffers.get ⟨k, hk⟩).rows.map (fun r => r.delivery_id)).Nodup) :
    optimizeRoutesSched proj distFn sched buffers bs =
      .error (.optimizationError "Duplicate delivery_id values found") := by
  have hvb : validateBuffers buffers =
      .error (.optimizationError "Duplicate delivery_id values found") :=
    validateBuffers_error_at buffers k hk hearlier _
      (validate_csv_schema_dup _ hcols hschema hdup)
  have hne : buffers.isEmpty = false := by
    cases buffers with
    | nil => exact absurd hk (by simp)
    | cons t rest => rfl
  unfold optimizeRoutesSched
  rw [if_neg (by rw [hne]; exact Bool.false_ne_true), hvb]

/-- Witness for the amended C2 on a buffer with an internal duplicate. -/
theorem duplicate_detected_within_buffer_witness :
    optimizeRoutesSched projId distZero [] [cTableDup] 100 =
      .error (.optimizationError "Duplicate delivery_id values found") :=
  duplicate_detected_within_buffer projId distZero [] [cTableDup] 100 0 (by decide)
    (fun j hj => absurd hj (Nat.not_lt_zero j)) (by decide) (by decide) (by decide)

/-- Counterexample to C6: optimize_routes itself never checks the batch
size; called with batch_size = 0 on a valid buffer it dies with the
uncaught ZeroDivisionError of the floor division, not with a
configuration error. -/
theorem batch_size_zero_unclassified :
    optimizeRoutesSched projId distZero [] [cTableAB] 0 =
      .error .zeroDivisionError := by decide

/-- C6 amended: a non-positive batch size is rejected with the
configuration error only by the Settings validator
(batch_size_positive); optimize_routes performs no check of its own and,
once validation of the buffers passes, fails with the unclassified
ZeroDivisionError when called with batch_size = 0. -/
theorem batch_size_nonpositive_settings_error (v : Int) (hv : v ≤ 0)
    (proj : String → ℚ × ℚ → ℚ × ℚ) (distFn : ℚ × ℚ → ℚ × ℚ → ℚ)
    (sched : List Nat) (buffers : List CsvTable) (hne : buffers ≠ [])
    (hval : ∀ t ∈ buffers, validate_csv_schema t = .ok ()) :
    batch_size_positive v = .error "batch_size must be a positive integer" ∧
      optimizeRoutesSched proj distFn sched buffers 0 =
        .error .zeroDivisionError := by
  constructor
  · unfold batch_size_positive
    rw [if_pos hv]
  · have hvb := validateBuffers_ok buffers hval
    have hbne : buffers.isEmpty = false := by
      cases buffers with
      | nil => exact absurd rfl hne
      | cons t rest => rfl
    unfold optimizeRoutesSched
    rw [if_neg (by rw [hbne]; exact Bool.false_ne_true), hvb]
    dsimp only
    rw [if_pos rfl]

/-- Witness for the amended C6 at batch size 0 and a valid buffer. -/
theorem batch_size_nonpositive_settings_error_witness :
    batch_size_positive 0 = .error "batch_size must be a positive integer" ∧
      optimizeRoutesSched projId distZero [] [cTableAB] 0 =
        .error .zeroDivisionError :=
  batch_size_nonpositive_settings_error 0 (by decide) projId distZero [] [cTableAB]
    (by decide) (by decide)

/-- Witness for C5: three combined rows at batch size two give two
batches; running them in reversed completion order returns the same
frame as the sequential pipeline. -/
theorem optimize_routes_schedule_independent_witness :
    optimizeRoutesSched projId distZero [1, 0] [cTableABC] 2 =
      optimizeRoutesSequential projId distZero [cTableABC] 2 :=
  optimize_routes_schedule_independent projId distZero [cTableABC] 2 [1, 0] (by decide)

/-! Retry shell lemmas (claim C7). -/

theorem wait_exponential_one : wait_exponential 1 4 10 1 = 4 := by
  unfold wait_exponential
  rw [show (1 : ℚ) * 2 ^ 1 = 2 by norm_num]
  rw [min_eq_left (by norm_num : (2 : ℚ) ≤ 10),
    max_eq_right (by norm_num : (0 : ℚ) ≤ 4),
    max_eq_left (by norm_num : (2 : ℚ) ≤ 4)]

theorem wait_exponential_two : wait_exponential 1 4 10 2 = 4 := by
  unfold wait_exponential
  rw [show (1 : ℚ) * 2 ^ 2 = 4 by norm_num]
  rw [min_eq_left (by norm_num : (4 : ℚ) ≤ 10),
    max_eq_right (by norm_num : (0 : ℚ) ≤ 4),
    max_eq_left (by norm_num : (4 : ℚ) ≤ 4)]

theorem tenacityRetry_all_fail {ε γ : Type} (f : Nat → Except ε γ) (es : Nat → ε)
    (hf : ∀ k, f k = .error (es k)) :
    tenacityRetry 3 f = (.error (es 2), 3, [4, 4]) := by
  show retryGo f 3 3 0 [] = _
  show (match f 0 with
    | .ok a => (Except.ok a, 0 + 1, List.reverse [])
    | .error e =>
      if 0 + 1 < 3 then
        retryGo f 3 2 (0 + 1) (wait_exponential 1 4 10 (0 + 1) :: [])
      else (Except.error e, 0 + 1, List.reverse [])) = _
  rw [hf 0]
  show (if 0 + 1 < 3 then
      retryGo f 3 2 (0 + 1) [wait_exponential 1 4 10 (0 + 1)]
    else (Except.error (es 0), 0 + 1, List.reverse [])) = _
  rw [if_pos (by omega : 0 + 1 < 3)]
  show (match f 1 with
    | .ok a => (Except.ok a, 1 + 1, List.reverse [wait_exponential 1 4 10 1])
    | .error e =>
      if 1 + 1 < 3 then
        retryGo f 3 1 (1 + 1)
          (wait_exponential 1 4 10 (1 + 1) :: [wait_exponential 1 4 10 1])
      else (Except.error e, 1 + 1, List.reverse [wait_exponential 1 4 10 1])) = _
  rw [hf 1]
  show (if 1 + 1 < 3 then
      retryGo f 3 1 (1 + 1)
        (wait_exponential 1 4 10 (1 + 1) :: [wait_exponential 1 4 10 1])
    else (Except.error (es 1), 1 + 1, List.reverse [wait_exponential 1 4 10 1])) = _
  rw [if_pos (by omega : 1 + 1 < 3)]
  show (match f 2 with
    | .ok a => (Except.ok a, 2 + 1,
        List.reverse [wait_exponential 1 4 10 2, wait_exponential 1 4 10 1])
    | .error e =>
      if 2 + 1 < 3 then
        retryGo f 3 0 (2 + 1)
          (wait_exponential 1 4 10 (2 + 1) ::
            [wait_exponential 1 4 10 2, wait_exponential 1 4 10 1])
      else (Except.error e, 2 + 1,
        List.reverse [wait_exponential 1 4 10 2, wait_exponential 1 4 10 1])) = _
  rw [hf 2]
  show (if 2 + 1 < 3 then
      retryGo f 3 0 (2 + 1)
        (wait_exponential 1 4 10 (2 + 1) ::
          [wait_exponential 1 4 10 2, wait_exponential 1 4 10 1])
    else (Except.error (es 2), 2 + 1,
      List.reverse [wait_exponential 1 4 10 2, wait_exponential 1 4 10 1])) = _
  rw [if_neg (by omega : ¬ (2 + 1 < 3))]
  rw [show List.reverse [wait_exponential 1 4 10 2, wait_exponential 1 4 10 1] =
    [wait_exponential 1 4 10 1, wait_exponential 1 4 10 2] from rfl]
  rw [wait_exponential_one, wait_exponential_two]

/-- Counterexample to C7: with three total attempts there are only two
sleeps, and tenacity wait_exponential(multiplier=1, min=4, max=10) clamps
both of them to 4; the delay sequence is [4, 4], not the claimed
4, 8, 10. -/
theorem retry_delays_not_4_8_10 :
    tenacityRetry 3 (fun _ => (Except.error 0 : Except Nat Unit)) =
      (Except.error 0, 3, [4, 4]) ∧
      ([(4 : ℚ), 4] ≠ [4, 8, 10]) := by
  constructor
  · exact tenacityRetry_all_fail (fun _ => Except.error 0) (fun _ => 0) (fun _ => rfl)
  · intro h
    have := congrArg List.length h
    simp at this

/-- C7 amended: the decorated optimize_routes is attempted exactly 3
times when the body keeps failing, blindly for every error value, with
the two inter-attempt delays both clamped to 4 time-units, and the last
error is reraised to the caller; a first-attempt success returns after
one attempt with no delay. -/
theorem retry_reraises_after_three_blind_attempts (proj : String → ℚ × ℚ → ℚ × ℚ)
    (distFn : ℚ × ℚ → ℚ × ℚ → ℚ) (sched : List Nat) (buffers : List CsvTable)
    (bs : Int) (e : PyError)
    (herr : optimizeRoutesSched proj distFn sched buffers bs = .error e) :
    optimizeRoutesRetried proj distFn sched buffers bs = (.error e, 3, [4, 4]) ∧
      ∀ g, optimizeRoutesSched proj distFn sched buffers bs = .ok g →
        optimizeRoutesRetried proj distFn sched buffers bs = (.ok g, 1, []) := by
  constructor
  · exact tenacityRetry_all_fail _ (fun _ => e) (fun _ => herr)
  · intro g hg
    rw [hg] at herr
    cases herr

/-- Witness for the amended C7: a buffer whose columns miss the schema
makes every attempt fail with the schema error, and the retried call
reports 3 attempts and delays 4 and 4. -/
theorem retry_reraises_after_three_blind_attempts_witness :
    optimizeRoutesRetried projId distZero [] [⟨["id"], []⟩] 100 =
      (.error (.optimizationError "CSV schema mismatch"), 3, [4, 4]) ∧
      ∀ g, optimizeRoutesSched projId distZero [] [⟨["id"], []⟩] 100 = .ok g →
        optimizeRoutesRetried projId distZero [] [⟨["id"], []⟩] 100 = (.ok g, 1, []) :=
  retry_reraises_after_three_blind_attempts projId distZero [] [⟨["id"], []⟩] 100
    (.optimizationError "CSV schema mismatch") (by decide)

/-! Geo projector lemmas (claim C8). -/

theorem pyInt_nonneg_eq_floor (q : ℚ) (h : 0 ≤ q) : pyInt q = ⌊q⌋ := if_pos h

/-- C8: inside the longitude and latitude ranges the CRS chosen by
get_utm_crs is the hemisphere prefix picked by the latitude sign followed
by zone number floor((lon + 180) / 6) + 1, and optimize_batch projects
every node of a batch with the single CRS computed from the first row's
pickup point. -/
theorem utm_crs_zone_formula_and_single_zone (lon lat : ℚ)
    (h1 : -180 ≤ lon) (_h2 : lon ≤ 180) (_h3 : -90 ≤ lat) (_h4 : lat ≤ 90) :
    utmZone lon = ⌊(lon + 180) / 6⌋ + 1 ∧
      get_utm_crs lon lat =
        (if 0 ≤ lat then "EPSG:326" else "EPSG:327") ++ pad2 (⌊(lon + 180) / 6⌋ + 1) ∧
      ∀ (proj : String → ℚ × ℚ → ℚ × ℚ) (r : Row) (rest : List Row) (nd : GNode),
        batchProjGeom proj (r :: rest) nd =
          proj (get_utm_crs r.pickup_lon r.pickup_lat) (nodeGeom (r :: rest) nd) := by
  have hz : utmZone lon = ⌊(lon + 180) / 6⌋ + 1 := by
    unfold utmZone
    rw [pyInt_nonneg_eq_floor _ (div_nonneg (by linarith) (by norm_num))]
  refine ⟨hz, ?_, fun proj r rest nd => rfl⟩
  unfold get_utm_crs
  rw [hz]

/-- Witness for C8 at the Manhattan reference point. -/
theorem utm_crs_zone_formula_and_single_zone_witness :
    utmZone (-74) = ⌊(((-74 : ℚ)) + 180) / 6⌋ + 1 ∧
      get_utm_crs (-74) 40 =
        (if (0 : ℚ) ≤ 40 then "EPSG:326" else "EPSG:327") ++
          pad2 (⌊(((-74 : ℚ)) + 180) / 6⌋ + 1) ∧
      ∀ (proj : String → ℚ × ℚ → ℚ × ℚ) (r : Row) (rest : List Row) (nd : GNode),
        batchProjGeom proj (r :: rest) nd =
          proj (get_utm_crs r.pickup_lon r.pickup_lat) (nodeGeom (r :: rest) nd) :=
  utm_crs_zone_formula_and_single_zone (-74) 40 (by norm_num) (by norm_num)
    (by norm_num) (by norm_num)

end LogisticsOpt
